import Mathlib

/-!
# Verification of the MidiKraft librarian core

A shallow embedding of the category-reconciliation algorithm and the
provenance (de)serialization of `PatchHolder.cpp` / `Category.cpp`,
together with proofs of the specification's testable properties.

External libraries (rapidjson, JUCE, midikraft-base) are modelled at
their interface boundary; everything from the repository itself is
translated directly from the source.
-/

set_option maxRecDepth 4096

namespace MidiKraft

/-- A category, as in `Category.cpp`: equality and ordering are defined
solely by the id of the shared `CategoryDefinition` (`operator==` and
`operator<` ignore name, color and bitIndex).  Since two categories with
the same id are indistinguishable as `std::set` elements, the embedding
carries exactly the identity-relevant datum. -/
structure Category where
  id : Nat
deriving DecidableEq

/-- The tri-state favorite enum `Favorite::TFavorite` from `PatchHolder.h`. -/
inductive TFavorite where
  | DONTKNOW
  | NO
  | YES
deriving DecidableEq

/-- The `Favorite` wrapper class. -/
structure Favorite where
  favorite_ : TFavorite
deriving DecidableEq

/-- `Favorite::Favorite(int howFavorite)` (PatchHolder.cpp, lines 265-281):
`-1` decodes to `DONTKNOW`, `0` to `NO`, `1` to `YES`; every other value
falls into the `default:` branch, which sets `DONTKNOW` (the `jassert(false)`
is a JUCE debug aid and a no-op in release builds, so the decode is not fatal). -/
def favoriteFromInt (howFavorite : Int) : Favorite :=
  if howFavorite = -1 then ⟨TFavorite.DONTKNOW⟩
  else if howFavorite = 0 then ⟨TFavorite.NO⟩
  else if howFavorite = 1 then ⟨TFavorite.YES⟩
  else ⟨TFavorite.DONTKNOW⟩

/-- `Favorite::is()`. -/
def Favorite.is (f : Favorite) : TFavorite := f.favorite_

/-- The fields of `PatchHolder` relevant to the categorization claims:
the current category set `categories_` and the user-decision set
`userDecisions_` (both `std::set<Category>`, embedded as `Finset`).
Fields not touched by the verified operations (patch payload, synth
reference, name, bank/program placement, ...) are omitted. -/
structure PatchHolder where
  categories_ : Finset Category
  userDecisions_ : Finset Category
  isFavorite_ : Favorite
  isHidden_ : Bool
deriving DecidableEq

/-- `PatchHolder::categories()`. -/
def PatchHolder.categories (h : PatchHolder) : Finset Category := h.categories_

/-- `PatchHolder::userDecisionSet()`. -/
def PatchHolder.userDecisionSet (h : PatchHolder) : Finset Category := h.userDecisions_

/-- `PatchHolder::hasCategory` (membership test in `categories_`). -/
def PatchHolder.hasCategory (h : PatchHolder) (category : Category) : Bool :=
  category ∈ h.categories_

/-- `PatchHolder::setCategory` (PatchHolder.cpp, lines 156-166): erase when
`hasIt` is false and the category is present, insert when `hasIt` is true. -/
def PatchHolder.setCategory (h : PatchHolder) (category : Category) (hasIt : Bool) : PatchHolder :=
  if !hasIt then
    if h.hasCategory category then { h with categories_ := h.categories_.erase category }
    else h
  else { h with categories_ := insert category h.categories_ }

/-- `PatchHolder::setCategories`: wholesale replacement of `categories_`. -/
def PatchHolder.setCategories (h : PatchHolder) (cats : Finset Category) : PatchHolder :=
  { h with categories_ := cats }

/-- `PatchHolder::clearCategories`. -/
def PatchHolder.clearCategories (h : PatchHolder) : PatchHolder :=
  { h with categories_ := ∅ }

/-- `PatchHolder::setUserDecision` (PatchHolder.cpp, lines 247-250):
inserts the clicked category into `userDecisions_`. -/
def PatchHolder.setUserDecision (h : PatchHolder) (clicked : Category) : PatchHolder :=
  { h with userDecisions_ := insert clicked h.userDecisions_ }

/-- `PatchHolder::setUserDecisions`: wholesale replacement of `userDecisions_`. -/
def PatchHolder.setUserDecisions (h : PatchHolder) (cats : Finset Category) : PatchHolder :=
  { h with userDecisions_ := cats }

/-- The body of `PatchHolder::autoCategorizeAgain` (PatchHolder.cpp,
lines 193-217) factored over its free variables, with the `previous`
snapshot as an explicit argument — the signature of spec §4.2.
The first `for` loop inserts every element of `newCategories` without a
user decision (`current ∪ (newCategories \ userDecisions)`); the second
loop erases every element of `previous` that vanished from
`newCategories` and has no user decision
(`... \ ((previous \ newCategories) \ userDecisions)`); the return value
is `previous != categories_` on the updated set. -/
def reconcile (current previous userDecisions newCategories : Finset Category) :
    Finset Category × Bool :=
  if previous ≠ newCategories then
    let afterAdd := current ∪ (newCategories \ userDecisions)
    let result := afterAdd \ ((previous \ newCategories) \ userDecisions)
    (result, previous ≠ result)
  else
    (current, false)

/-- `PatchHolder::autoCategorizeAgain`: takes the `previous` snapshot from
`categories()` (so `previous = categories_` at entry), asks the detector
for `newCategories = detector->determineAutomaticCategories(*this)`, and
runs the merge.  The detector is the external classifier, modelled as a
function from the holder to a category set. -/
def PatchHolder.autoCategorizeAgain (h : PatchHolder)
    (detector : PatchHolder → Finset Category) : PatchHolder × Bool :=
  let previous := h.categories
  let newCategories := detector h
  let p := reconcile h.categories_ previous h.userDecisions_ newCategories
  ({ h with categories_ := p.1 }, p.2)

/-- Sample categories for concrete instances (A, B, C of the spec's examples). -/
def catA : Category := Category.mk 0

/-- Sample category B. -/
def catB : Category := Category.mk 1

/-- Sample category C. -/
def catC : Category := Category.mk 2

/-- Sample holder with `categories_ = {A,B}` and `userDecisions_ = {B}`. -/
def demoHolder1 : PatchHolder := ⟨{catA, catB}, {catB}, ⟨TFavorite.DONTKNOW⟩, false⟩

/-- Sample classifier that always returns `{A}`. -/
def demoDetector1 : PatchHolder → Finset Category := fun _ => {catA}

/-- Sample holder with `categories_ = {A}` and no user decisions. -/
def demoHolder2 : PatchHolder := ⟨{catA}, ∅, ⟨TFavorite.DONTKNOW⟩, false⟩

/-- Sample classifier that always returns `{A,C}`. -/
def demoDetector2 : PatchHolder → Finset Category := fun _ => {catA, catC}

/-- Sample classifier that reproduces the holder's current categories. -/
def demoDetectorSame : PatchHolder → Finset Category := fun h => h.categories

/-! ## Provenance model: rapidjson DOM, rendering and parsing

The repository reads and writes provenance records through the rapidjson
DOM (`Document::Parse`, `HasMember`/`FindMember`, `GetString`/`GetInt`,
and a compact writer, wrapped by `renderToJson` in `RapidjsonHelper`).
The DOM and the text layer are modelled below, restricted to the value
kinds the code produces and inspects: null, booleans, integers, strings,
objects and arrays.  Whitespace, floating-point numbers and a few escape
forms accepted by rapidjson are not modelled; the code under
verification never produces them. -/

/-- The double-quote character. -/
def quoteChar : Char := Char.ofNat 34

/-- The backslash character. -/
def backslashChar : Char := Char.ofNat 92

/-- Opening brace. -/
def lbraceChar : Char := Char.ofNat 123

/-- Closing brace. -/
def rbraceChar : Char := Char.ofNat 125

/-- Opening bracket. -/
def lbrackChar : Char := Char.ofNat 91

/-- Closing bracket. -/
def rbrackChar : Char := Char.ofNat 93

/-- Colon. -/
def colonChar : Char := Char.ofNat 58

/-- Comma. -/
def commaChar : Char := Char.ofNat 44

/-- Minus sign. -/
def minusChar : Char := Char.ofNat 45

/-- A rapidjson DOM value. -/
inductive JValue where
  | jnull
  | jbool (b : Bool)
  | jint (n : Int)
  | jstr (s : String)
  | jobj (fields : List (String × JValue))
  | jarr (elems : List JValue)

mutual

/-- Decidable equality of DOM values (the derive handler does not support
nested inductives). -/
def decEqJValue : (a b : JValue) → Decidable (a = b)
  | .jnull, .jnull => isTrue rfl
  | .jbool x, .jbool y =>
    if h : x = y then isTrue (by rw [h])
    else isFalse (fun hh => h (by injection hh))
  | .jint x, .jint y =>
    if h : x = y then isTrue (by rw [h])
    else isFalse (fun hh => h (by injection hh))
  | .jstr x, .jstr y =>
    if h : x = y then isTrue (by rw [h])
    else isFalse (fun hh => h (by injection hh))
  | .jobj xs, .jobj ys =>
    match decEqJFields xs ys with
    | isTrue h => isTrue (by rw [h])
    | isFalse h => isFalse (fun hh => h (by injection hh))
  | .jarr xs, .jarr ys =>
    match decEqJList xs ys with
    | isTrue h => isTrue (by rw [h])
    | isFalse h => isFalse (fun hh => h (by injection hh))
  | .jnull, .jbool _ | .jnull, .jint _ | .jnull, .jstr _ | .jnull, .jobj _ | .jnull, .jarr _
  | .jbool _, .jnull | .jbool _, .jint _ | .jbool _, .jstr _ | .jbool _, .jobj _
  | .jbool _, .jarr _
  | .jint _, .jnull | .jint _, .jbool _ | .jint _, .jstr _ | .jint _, .jobj _ | .jint _, .jarr _
  | .jstr _, .jnull | .jstr _, .jbool _ | .jstr _, .jint _ | .jstr _, .jobj _ | .jstr _, .jarr _
  | .jobj _, .jnull | .jobj _, .jbool _ | .jobj _, .jint _ | .jobj _, .jstr _ | .jobj _, .jarr _
  | .jarr _, .jnull | .jarr _, .jbool _ | .jarr _, .jint _ | .jarr _, .jstr _
  | .jarr _, .jobj _ => isFalse (fun h => by cases h)
termination_by a _ => sizeOf a

/-- Decidable equality of member lists. -/
def decEqJFields : (xs ys : List (String × JValue)) → Decidable (xs = ys)
  | [], [] => isTrue rfl
  | [], _ :: _ => isFalse (fun h => by cases h)
  | _ :: _, [] => isFalse (fun h => by cases h)
  | (k1, v1) :: xs, (k2, v2) :: ys =>
    if hk : k1 = k2 then
      match decEqJValue v1 v2 with
      | isTrue hv =>
        match decEqJFields xs ys with
        | isTrue ht => isTrue (by rw [hk, hv, ht])
        | isFalse ht =>
          isFalse (fun h => by
            injection h with h1 h2
            exact ht h2)
      | isFalse hv =>
        isFalse (fun h => by
          injection h with h1 h2
          injection h1 with hk2 hv2
          exact hv hv2)
    else
      isFalse (fun h => by
        injection h with h1 h2
        injection h1 with hk2 hv2
        exact hk hk2)
termination_by xs _ => sizeOf xs

/-- Decidable equality of element lists. -/
def decEqJList : (xs ys : List JValue) → Decidable (xs = ys)
  | [], [] => isTrue rfl
  | [], _ :: _ => isFalse (fun h => by cases h)
  | _ :: _, [] => isFalse (fun h => by cases h)
  | x :: xs, y :: ys =>
    match decEqJValue x y with
    | isTrue hv =>
      match decEqJList xs ys with
      | isTrue ht => isTrue (by rw [hv, ht])
      | isFalse ht =>
        isFalse (fun h => by
          injection h with h1 h2
          exact ht h2)
    | isFalse hv =>
      isFalse (fun h => by
        injection h with h1 h2
        exact hv h1)
termination_by xs _ => sizeOf xs

end

instance : DecidableEq JValue := decEqJValue

/-- A scalar DOM value (no nested object or array) — every member value
the serializer under verification emits is of this shape. -/
def JFlat : JValue → Prop
  | .jobj _ => False
  | .jarr _ => False
  | _ => True

/-- Decimal digit test. -/
def isDigitChar (c : Char) : Bool := 48 ≤ c.toNat && c.toNat ≤ 57

/-- Upper-case hexadecimal digit for a value below 16. -/
def hexDigitChar (d : Nat) : Char :=
  if d < 10 then Char.ofNat (48 + d) else Char.ofNat (55 + d)

/-- Value of a hexadecimal digit character. -/
def hexVal (c : Char) : Option Nat :=
  if 48 ≤ c.toNat ∧ c.toNat ≤ 57 then some (c.toNat - 48)
  else if 65 ≤ c.toNat ∧ c.toNat ≤ 70 then some (c.toNat - 55)
  else if 97 ≤ c.toNat ∧ c.toNat ≤ 102 then some (c.toNat - 87)
  else none

/-- JSON escaping of one character, as the rapidjson writer does: quote
and backslash get a backslash escape, control characters a `\u00XX`
escape, everything else is copied verbatim. -/
def escChar (c : Char) : List Char :=
  if c = quoteChar then [backslashChar, quoteChar]
  else if c = backslashChar then [backslashChar, backslashChar]
  else if c.toNat < 32 then
    [backslashChar, 'u', '0', '0', hexDigitChar (c.toNat / 16), hexDigitChar (c.toNat % 16)]
  else [c]

/-- JSON escaping of a character sequence. -/
def escStr : List Char → List Char
  | [] => []
  | c :: cs => escChar c ++ escStr cs

/-- A rendered JSON string literal. -/
def renderStringChars (s : String) : List Char := quoteChar :: escStr s.data ++ [quoteChar]

/-- Decimal digits of a natural number, most significant first. -/
def natDigitsChars (n : Nat) : List Char :=
  if n = 0 then [Char.ofNat 48]
  else ((Nat.digits 10 n).map (fun d => Char.ofNat (48 + d))).reverse

/-- A rendered integer. -/
def intChars (i : Int) : List Char :=
  if i < 0 then minusChar :: natDigitsChars i.natAbs else natDigitsChars i.natAbs

mutual

/-- Compact rendering of a DOM value, as rapidjson's writer emits it. -/
def renderVal : JValue → List Char
  | .jnull => ['n', 'u', 'l', 'l']
  | .jbool true => ['t', 'r', 'u', 'e']
  | .jbool false => ['f', 'a', 'l', 's', 'e']
  | .jint n => intChars n
  | .jstr s => renderStringChars s
  | .jobj [] => [lbraceChar, rbraceChar]
  | .jobj (kv :: kvs) => lbraceChar :: renderMembers kv kvs ++ [rbraceChar]
  | .jarr [] => [lbrackChar, rbrackChar]
  | .jarr (v :: vs) => lbrackChar :: renderElems v vs ++ [rbrackChar]
termination_by v => sizeOf v

/-- Rendering of a non-empty member list, comma separated. -/
def renderMembers : (String × JValue) → List (String × JValue) → List Char
  | (k, v), [] => renderStringChars k ++ colonChar :: renderVal v
  | (k, v), kv2 :: kvs =>
    renderStringChars k ++ colonChar :: renderVal v ++ commaChar :: renderMembers kv2 kvs
termination_by kv kvs => sizeOf kv + sizeOf kvs

/-- Rendering of a non-empty element list, comma separated. -/
def renderElems : JValue → List JValue → List Char
  | v, [] => renderVal v
  | v, v2 :: vs => renderVal v ++ commaChar :: renderElems v2 vs
termination_by v vs => sizeOf v + sizeOf vs

end

/-- `renderToJson` (RapidjsonHelper): serialize a DOM value to compact
JSON text. -/
def renderToJson (v : JValue) : String := String.mk (renderVal v)

/-- Unescaping of a single-character escape sequence. -/
def unescapeChar (e : Char) : Option Char :=
  if e = quoteChar then some quoteChar
  else if e = backslashChar then some backslashChar
  else if e = '/' then some '/'
  else if e = 'b' then some (Char.ofNat 8)
  else if e = 'f' then some (Char.ofNat 12)
  else if e = 'n' then some (Char.ofNat 10)
  else if e = 'r' then some (Char.ofNat 13)
  else if e = 't' then some (Char.ofNat 9)
  else none

/-- Parse the body of a JSON string literal (after the opening quote),
returning the decoded characters and the remaining input. -/
def parseStringBody : List Char → Option (List Char × List Char)
  | [] => none
  | c :: rest =>
    if c = quoteChar then some ([], rest)
    else if c = backslashChar then
      match rest with
      | [] => none
      | e :: rest2 =>
        if e = 'u' then
          match rest2 with
          | h1 :: h2 :: h3 :: h4 :: rest3 =>
            match hexVal h1, hexVal h2, hexVal h3, hexVal h4 with
            | some d1, some d2, some d3, some d4 =>
              (parseStringBody rest3).map
                (fun p => (Char.ofNat (((d1 * 16 + d2) * 16 + d3) * 16 + d4) :: p.1, p.2))
            | _, _, _, _ => none
          | _ => none
        else
          match unescapeChar e with
          | some u => (parseStringBody rest2).map (fun p => (u :: p.1, p.2))
          | none => none
    else (parseStringBody rest).map (fun p => (c :: p.1, p.2))

/-- Value of a non-empty digit sequence, most significant digit first. -/
def digitsVal (digs : List Char) : Nat :=
  digs.foldl (fun acc c => acc * 10 + (c.toNat - 48)) 0

/-- Parse a natural number (one or more leading digits). -/
def parseNat (cs : List Char) : Option (Nat × List Char) :=
  if (cs.takeWhile isDigitChar).isEmpty then none
  else some (digitsVal (cs.takeWhile isDigitChar), cs.dropWhile isDigitChar)

/-- Parse an optionally-signed integer. -/
def parseIntChars (cs : List Char) : Option (Int × List Char) :=
  match cs with
  | [] => none
  | c :: rest =>
    if c = minusChar then (parseNat rest).map (fun p => (-(p.1 : Int), p.2))
    else (parseNat (c :: rest)).map (fun p => ((p.1 : Int), p.2))

mutual

/-- Recursive-descent parse of one JSON value.  The fuel only bounds the
bracket-nesting depth (each recursive step consumes at least one input
character, so `input length + constant` fuel is always sufficient). -/
def parseVal : Nat → List Char → Option (JValue × List Char)
  | 0, _ => none
  | _ + 1, [] => none
  | fuel + 1, c :: rest =>
    if c = lbraceChar then
      match rest with
      | d :: rest2 =>
        if d = rbraceChar then some (.jobj [], rest2)
        else (parseMembers fuel (d :: rest2)).map (fun p => (.jobj p.1, p.2))
      | [] => none
    else if c = lbrackChar then
      match rest with
      | d :: rest2 =>
        if d = rbrackChar then some (.jarr [], rest2)
        else (parseElems fuel (d :: rest2)).map (fun p => (.jarr p.1, p.2))
      | [] => none
    else if c = quoteChar then
      (parseStringBody rest).map (fun p => (.jstr (String.mk p.1), p.2))
    else if c = 't' then
      if rest.take 3 = ['r', 'u', 'e'] then some (.jbool true, rest.drop 3) else none
    else if c = 'f' then
      if rest.take 4 = ['a', 'l', 's', 'e'] then some (.jbool false, rest.drop 4) else none
    else if c = 'n' then
      if rest.take 3 = ['u', 'l', 'l'] then some (.jnull, rest.drop 3) else none
    else if c = minusChar ∨ isDigitChar c then
      (parseIntChars (c :: rest)).map (fun p => (.jint p.1, p.2))
    else none

/-- Parse a non-empty member list up to and including the closing brace. -/
def parseMembers : Nat → List Char → Option (List (String × JValue) × List Char)
  | 0, _ => none
  | fuel + 1, cs =>
    match cs with
    | c :: rest =>
      if c = quoteChar then
        match parseStringBody rest with
        | some (key, r1) =>
          match r1 with
          | d :: r2 =>
            if d = colonChar then
              match parseVal fuel r2 with
              | some (v, r3) =>
                match r3 with
                | e :: r4 =>
                  if e = commaChar then
                    (parseMembers fuel r4).map (fun p => ((String.mk key, v) :: p.1, p.2))
                  else if e = rbraceChar then some ([(String.mk key, v)], r4)
                  else none
                | [] => none
              | none => none
            else none
          | [] => none
        | none => none
      else none
    | [] => none

/-- Parse a non-empty element list up to and including the closing bracket. -/
def parseElems : Nat → List Char → Option (List JValue × List Char)
  | 0, _ => none
  | fuel + 1, cs =>
    match parseVal fuel cs with
    | some (v, r1) =>
      match r1 with
      | e :: r2 =>
        if e = commaChar then (parseElems fuel r2).map (fun p => (v :: p.1, p.2))
        else if e = rbrackChar then some ([v], r2)
        else none
      | [] => none
    | none => none

end

/-- rapidjson `Document::Parse`: a complete document is one value with no
trailing input; anything else leaves the document in an error state,
modelled as `none` (a failed document is not an object, so
`doc.IsObject()` is false). -/
def jsonParse (s : String) : Option JValue :=
  match parseVal (s.data.length + 5) s.data with
  | some (v, []) => some v
  | _ => none

/-! ## Provenance records -/

/-- `MidiBankNumber` (midikraft-base, external), at its interface
boundary: either invalid (`MidiBankNumber::invalid()`, meaning an edit
buffer) or a valid zero-based bank number. -/
abbrev MidiBankNumber := Option Int

/-- Modelled from the spec: JUCE `Time` (external) — "timestamp: instant
(may be 'unset' = epoch/zero)" — an instant with millisecond precision;
default-constructed `Time()` is 0. -/
abbrev Time := Int

/-- Modelled from the spec: JUCE `Time::toISO8601` — the "ISO-8601 text"
form of an instant.  The verification only relies on the interface
property that `fromISO8601` inverts it, so the embedding encodes the
signed millisecond count in decimal. -/
def toISO8601 (t : Time) : String := String.mk (intChars t)

/-- Modelled from the spec: JUCE `Time::fromISO8601`, the decoder for
`toISO8601`; unparseable text yields the default (epoch) time. -/
def fromISO8601 (s : String) : Time :=
  match parseIntChars s.data with
  | some (t, []) => t
  | _ => 0

/-- The `SourceInfo` hierarchy (`FromFileSource`, `FromSynthSource`,
`FromBulkImportSource`), embedded as a closed sum carrying each
subclass's constructor data, which fully determines its `jsonRep_`. -/
inductive SourceInfo where
  | fromFileSource (filename : String) (fullpath : String) (program : Int)
  | fromSynthSource (timestamp : Time) (bankNo : MidiBankNumber)
  | fromBulkImportSource (timestamp : Time) (individualInfo : Option SourceInfo)

/-- Decidable equality of provenance records (the derive handler does not
support the nested `Option`). -/
def decEqSourceInfo : (a b : SourceInfo) → Decidable (a = b)
  | .fromFileSource f1 p1 n1, .fromFileSource f2 p2 n2 =>
    if h : f1 = f2 ∧ p1 = p2 ∧ n1 = n2 then isTrue (by rw [h.1, h.2.1, h.2.2])
    else
      isFalse (fun hh => by
        injection hh with h1 h2 h3
        exact h ⟨h1, h2, h3⟩)
  | .fromSynthSource t1 b1, .fromSynthSource t2 b2 =>
    if h : t1 = t2 ∧ b1 = b2 then isTrue (by rw [h.1, h.2])
    else
      isFalse (fun hh => by
        injection hh with h1 h2
        exact h ⟨h1, h2⟩)
  | .fromBulkImportSource t1 none, .fromBulkImportSource t2 none =>
    if h : t1 = t2 then isTrue (by rw [h])
    else
      isFalse (fun hh => by
        injection hh with h1 h2
        exact h h1)
  | .fromBulkImportSource t1 (some s1), .fromBulkImportSource t2 (some s2) =>
    if h : t1 = t2 then
      match decEqSourceInfo s1 s2 with
      | isTrue hs => isTrue (by rw [h, hs])
      | isFalse hs =>
        isFalse (fun hh => by
          injection hh with h1 h2
          injection h2 with h3
          exact hs h3)
    else
      isFalse (fun hh => by
        injection hh with h1 h2
        exact h h1)
  | .fromBulkImportSource _ none, .fromBulkImportSource _ (some _) =>
    isFalse (fun hh => by
      injection hh with h1 h2
      exact Option.noConfusion h2)
  | .fromBulkImportSource _ (some _), .fromBulkImportSource _ none =>
    isFalse (fun hh => by
      injection hh with h1 h2
      exact Option.noConfusion h2)
  | .fromFileSource _ _ _, .fromSynthSource _ _ | .fromFileSource _ _ _, .fromBulkImportSource _ _
  | .fromSynthSource _ _, .fromFileSource _ _ _ | .fromSynthSource _ _, .fromBulkImportSource _ _
  | .fromBulkImportSource _ _, .fromFileSource _ _ _
  | .fromBulkImportSource _ _, .fromSynthSource _ _ => isFalse (fun h => by cases h)
termination_by a _ => sizeOf a

instance : DecidableEq SourceInfo := decEqSourceInfo

/-- Key `"filesource"`. -/
def kFileSource : String := "filesource"

/-- Key `"synthsource"`. -/
def kSynthSource : String := "synthsource"

/-- Key `"bulksource"`. -/
def kBulkSource : String := "bulksource"

/-- Key `"fileInBulk"`. -/
def kFileInBulk : String := "fileInBulk"

/-- Key `"filename"`. -/
def kFileName : String := "filename"

/-- Key `"fullpath"`. -/
def kFullPath : String := "fullpath"

/-- Key `"timestamp"`. -/
def kTimeStamp : String := "timestamp"

/-- Key `"banknumber"`. -/
def kBankNumber : String := "banknumber"

/-- Key `"program"`. -/
def kProgramNo : String := "program"

mutual

/-- The DOM document each subclass constructor builds (PatchHolder.cpp:
`FromFileSource` lines 406-416, `FromSynthSource` lines 318-329,
`FromBulkImportSource` lines 446-458): the discriminator member set to
`true`, then the variant's fields in insertion order; the bank number
only when valid, the nested record only when present (serialized to a
string member). -/
def sourceInfoToJson : SourceInfo → JValue
  | .fromFileSource filename fullpath program =>
    .jobj [(kFileSource, .jbool true), (kFileName, .jstr filename),
           (kFullPath, .jstr fullpath), (kProgramNo, .jint program)]
  | .fromSynthSource timestamp bankNo =>
    .jobj ([(kSynthSource, .jbool true), (kTimeStamp, .jstr (toISO8601 timestamp))] ++
      (match bankNo with
       | some b => [(kBankNumber, .jint b)]
       | none => []))
  | .fromBulkImportSource timestamp individualInfo =>
    .jobj ([(kBulkSource, .jbool true), (kTimeStamp, .jstr (toISO8601 timestamp))] ++
      (match individualInfo with
       | some sub => [(kFileInBulk, .jstr (sourceInfoToString sub))]
       | none => []))

/-- `SourceInfo::toString`: the `jsonRep_` stored at construction. -/
def sourceInfoToString (si : SourceInfo) : String := renderToJson (sourceInfoToJson si)

end

/-- Faults of the rapidjson accessors the code uses unguarded. -/
inductive RapidjsonFault where
  /-- Dereferencing the end iterator returned by `FindMember` for an
  absent member (`FindMember(...).operator*()` — undefined behavior). -/
  | memberNotFound
  /-- `GetString`/`GetInt` on a value of the wrong type
  (`RAPIDJSON_ASSERT`). -/
  | typeAssert
deriving DecidableEq

/-- rapidjson `FindMember`: first member with the given name, if any. -/
def findMember (fields : List (String × JValue)) (k : String) : Option JValue :=
  (fields.find? (fun kv => decide (kv.1 = k))).map (fun kv => kv.2)

/-- rapidjson `HasMember`. -/
def hasMember (fields : List (String × JValue)) (k : String) : Bool :=
  (findMember fields k).isSome

/-- `FindMember(...).operator*().value.GetString()`: faults when the
member is absent or not a string. -/
def getMemberString (fields : List (String × JValue)) (k : String) :
    Except RapidjsonFault String :=
  match findMember fields k with
  | some (.jstr s) => .ok s
  | some _ => .error .typeAssert
  | none => .error .memberNotFound

/-- `FindMember(...).operator*().value.GetInt()`: faults when the member
is absent or not an integer. -/
def getMemberInt (fields : List (String × JValue)) (k : String) :
    Except RapidjsonFault Int :=
  match findMember fields k with
  | some (.jint n) => .ok n
  | some _ => .error .typeAssert
  | none => .error .memberNotFound

/-- `FromFileSource::fromString` (PatchHolder.cpp, lines 430-444):
re-parses the text; if it is an object with the `filesource` member, it
unconditionally dereferences the `filename`, `fullpath` and `program`
members, faulting if one is absent or mistyped; otherwise `nullptr`. -/
def fromFileSource_fromString (s : String) : Except RapidjsonFault (Option SourceInfo) :=
  match jsonParse s with
  | some (.jobj fields) =>
    if hasMember fields kFileSource then
      match getMemberString fields kFileName with
      | .error e => .error e
      | .ok filename =>
        match getMemberString fields kFullPath with
        | .error e => .error e
        | .ok fullpath =>
          match getMemberInt fields kProgramNo with
          | .error e => .error e
          | .ok program => .ok (some (.fromFileSource filename fullpath program))
    else .ok none
  | _ => .ok none

/-- `FromSynthSource::fromString` (PatchHolder.cpp, lines 379-399): the
timestamp member is read only when present (absent parses as the default
epoch time), the bank member only when present (absent means
`MidiBankNumber::invalid()`). -/
def fromSynthSource_fromString (s : String) : Except RapidjsonFault (Option SourceInfo) :=
  match jsonParse s with
  | some (.jobj fields) =>
    if hasMember fields kSynthSource then
      match
        (if hasMember fields kTimeStamp then
          (getMemberString fields kTimeStamp).map fromISO8601
        else .ok (0 : Time)) with
      | .error e => .error e
      | .ok timestamp =>
        match
          (if hasMember fields kBankNumber then
            (getMemberInt fields kBankNumber).map (fun n => (some n : MidiBankNumber))
          else .ok (none : MidiBankNumber)) with
        | .error e => .error e
        | .ok bankNo => .ok (some (.fromSynthSource timestamp bankNo))
    else .ok none
  | _ => .ok none

/-- `FromBulkImportSource::fromString` (PatchHolder.cpp, lines 482-509),
with the recursive call to `SourceInfo::fromString` for the nested
record abstracted as a parameter: a string-valued `fileInBulk` member is
deserialized directly, any other value is first re-rendered to text
(both forms are accepted on read). -/
def fromBulkImportSource_core
    (recurse : String → Except RapidjsonFault (Option SourceInfo)) (s : String) :
    Except RapidjsonFault (Option SourceInfo) :=
  match jsonParse s with
  | some (.jobj fields) =>
    if hasMember fields kBulkSource then
      match
        (if hasMember fields kTimeStamp then
          (getMemberString fields kTimeStamp).map fromISO8601
        else .ok (0 : Time)) with
      | .error e => .error e
      | .ok timestamp =>
        match
          (match findMember fields kFileInBulk with
            | some (.jstr sub) => recurse sub
            | some v => recurse (renderToJson v)
            | none => .ok (none : Option SourceInfo)) with
        | .error e => .error e
        | .ok individualInfo => .ok (some (.fromBulkImportSource timestamp individualInfo))
    else .ok none
  | _ => .ok none

/-- `SourceInfo::fromString` (PatchHolder.cpp, lines 293-310) with
explicit recursion fuel: the C++ recursion through nested bulk records
terminates because each nested serialized record is strictly shorter
than its container; fuel `length + 1` is shown sufficient for every
record the serializer produces.  Fuel exhaustion returns absence. -/
def sourceInfoFromStringGo : Nat → String → Except RapidjsonFault (Option SourceInfo)
  | 0, _ => .ok none
  | fuel + 1, s =>
    match jsonParse s with
    | some (.jobj fields) =>
      if hasMember fields kFileSource then fromFileSource_fromString s
      else if hasMember fields kSynthSource then fromSynthSource_fromString s
      else if hasMember fields kBulkSource then
        fromBulkImportSource_core (sourceInfoFromStringGo fuel) s
      else .ok none
    | _ => .ok none

/-- `SourceInfo::fromString`: parse, inspect the discriminators in the
fixed priority order `filesource`, `synthsource`, `bulksource`, and
dispatch to the matching variant's parser; anything else is `nullptr`. -/
def sourceInfo_fromString (s : String) : Except RapidjsonFault (Option SourceInfo) :=
  sourceInfoFromStringGo (s.length + 1) s

/-- `FromBulkImportSource::fromString` as the standalone entry point. -/
def fromBulkImportSource_fromString (s : String) : Except RapidjsonFault (Option SourceInfo) :=
  fromBulkImportSource_core sourceInfo_fromString s

/-- `SourceInfo::isEditBufferImport` (PatchHolder.cpp, lines 312-316):
the dynamic cast to `FromSynthSource` succeeds and the bank number is
invalid. -/
def isEditBufferImport : Option SourceInfo → Bool
  | some (.fromSynthSource _ none) => true
  | _ => false

/-- Nesting depth of a provenance record (1 for a record without a
nested record). -/
def sourceDepth : SourceInfo → Nat
  | .fromBulkImportSource _ (some sub) => sourceDepth sub + 1
  | _ => 1

/-- Whether a parsed document is an object carrying one of the three
recognized discriminator keys (the condition under which
`SourceInfo::fromString` dispatches to a variant parser at all). -/
def parsedObjHasDiscriminator (s : String) : Bool :=
  match jsonParse s with
  | some (.jobj fields) =>
    hasMember fields kFileSource || hasMember fields kSynthSource || hasMember fields kBulkSource
  | _ => false

theorem mem_reconcile_fst {previous newCategories : Finset Category}
    (hne : previous ≠ newCategories) (current userDecisions : Finset Category) (c : Category) :
    c ∈ (reconcile current previous userDecisions newCategories).1 ↔
      ((c ∈ current ∨ (c ∈ newCategories ∧ c ∉ userDecisions)) ∧
        ¬(c ∈ previous ∧ c ∉ newCategories ∧ c ∉ userDecisions)) := by
  simp only [reconcile, if_pos hne, Finset.mem_sdiff, Finset.mem_union]
  tauto

theorem reconcile_result_fixed (C U N : Finset Category) :
    ((((C ∪ (N \ U)) \ ((C \ N) \ U)) ∪ (N \ U)) \
        (((((C ∪ (N \ U)) \ ((C \ N) \ U))) \ N) \ U)) =
      (C ∪ (N \ U)) \ ((C \ N) \ U) := by
  ext x
  simp only [Finset.mem_sdiff, Finset.mem_union]
  tauto

theorem reconcile_fst_eq {previous newCategories : Finset Category}
    (hne : previous ≠ newCategories) (current userDecisions : Finset Category) :
    (reconcile current previous userDecisions newCategories).1 =
      (current ∪ (newCategories \ userDecisions)) \
        ((previous \ newCategories) \ userDecisions) := by
  simp only [reconcile, if_pos hne]

theorem reconcile_snd_eq {previous newCategories : Finset Category}
    (hne : previous ≠ newCategories) (current userDecisions : Finset Category) :
    (reconcile current previous userDecisions newCategories).2 =
      decide (previous ≠ (reconcile current previous userDecisions newCategories).1) := by
  simp only [reconcile, if_pos hne]

theorem reconcile_of_eq {previous newCategories : Finset Category}
    (heq : previous = newCategories) (current userDecisions : Finset Category) :
    reconcile current previous userDecisions newCategories = (current, false) := by
  simp only [reconcile, heq, ne_eq, not_true_eq_false, if_false]

theorem autoCategorizeAgain_fst_categories (h : PatchHolder)
    (detector : PatchHolder → Finset Category) :
    ((h.autoCategorizeAgain detector).1).categories_ =
      (reconcile h.categories_ h.categories_ h.userDecisions_ (detector h)).1 := rfl

theorem autoCategorizeAgain_fst_userDecisions (h : PatchHolder)
    (detector : PatchHolder → Finset Category) :
    ((h.autoCategorizeAgain detector).1).userDecisions_ = h.userDecisions_ := rfl

/-- C1: Reconciliation respects user locks against removal: whenever the
classifier output omits a category present in the `previous` snapshot
(which `autoCategorizeAgain` takes from the current set at entry), that
category is removed from the current set unless it is in the
user-decision set; and concretely, with `current = {A,B}`,
`previous = {A,B}`, `user_decisions = {B}` and classifier output `{A}`,
the resulting category set is `{A,B}` (B survives removal). -/
theorem C1_removal_respects_user_locks :
    (∀ (detector : PatchHolder → Finset Category) (h : PatchHolder) (c : Category),
        c ∈ h.categories → c ∉ detector h →
        (c ∈ ((h.autoCategorizeAgain detector).1).categories ↔ c ∈ h.userDecisionSet))
    ∧ (reconcile {catA, catB} {catA, catB} {catB} {catA}).1 = {catA, catB} := by
  constructor
  · intro detector h c hmem hnot
    have hne : h.categories_ ≠ detector h := by
      intro hEq
      exact hnot (hEq ▸ hmem)
    show c ∈ (reconcile h.categories_ h.categories_ h.userDecisions_ (detector h)).1 ↔ _
    rw [mem_reconcile_fst hne]
    have hc : c ∈ h.categories_ := hmem
    constructor
    · intro ⟨_, hright⟩
      by_contra hcu
      exact hright ⟨hc, hnot, hcu⟩
    · intro hu
      exact ⟨Or.inl hc, fun ⟨_, _, hcu⟩ => hcu hu⟩
  · decide

/-- C1 witness: the lock property evaluated at the concrete instance of the
claim (`current = previous = {A,B}`, `user_decisions = {B}`, classifier
output `{A}`): B is in the previous set, dropped by the classifier, and
survives because it is user-locked. -/
theorem C1_removal_respects_user_locks_witness :
    catB ∈ demoHolder1.categories ∧ catB ∉ demoDetector1 demoHolder1 ∧
      (catB ∈ ((demoHolder1.autoCategorizeAgain demoDetector1).1).categories ↔
        catB ∈ demoHolder1.userDecisionSet) :=
  ⟨by decide, by decide,
    C1_removal_respects_user_locks.1 demoDetector1 demoHolder1 catB (by decide) (by decide)⟩

/-- C4: Changed-flag semantics of `autoCategorizeAgain`: if the classifier
output equals the previous snapshot (taken from the category set at call
entry), the call is a no-op and reports `false`; otherwise it reports
`true` exactly when the resulting category set differs from its pre-call
value. -/
theorem C4_changed_flag_semantics :
    ∀ (detector : PatchHolder → Finset Category) (h : PatchHolder),
      (detector h = h.categories → h.autoCategorizeAgain detector = (h, false))
      ∧ ((h.autoCategorizeAgain detector).2 = true ↔
          (h.autoCategorizeAgain detector).1.categories ≠ h.categories) := by
  intro detector h
  constructor
  · intro heq
    have heq' : h.categories_ = detector h := heq.symm
    show ({ h with categories_ := (reconcile h.categories_ h.categories_ h.userDecisions_ (detector h)).1 },
        (reconcile h.categories_ h.categories_ h.userDecisions_ (detector h)).2) = (h, false)
    rw [reconcile_of_eq heq']
  · by_cases hne : h.categories_ = detector h
    · show (reconcile h.categories_ h.categories_ h.userDecisions_ (detector h)).2 = true ↔
        (reconcile h.categories_ h.categories_ h.userDecisions_ (detector h)).1 ≠ h.categories_
      rw [reconcile_of_eq hne]
      simp
    · show (reconcile h.categories_ h.categories_ h.userDecisions_ (detector h)).2 = true ↔
        (reconcile h.categories_ h.categories_ h.userDecisions_ (detector h)).1 ≠ h.categories_
      rw [reconcile_snd_eq hne]
      simp [ne_comm]

/-- C4 witness: at the concrete instance (`categories = {A,B}`, classifier
output `{A}` with B user-locked) the flag equivalence holds: the set is
unchanged and the call reports `false`. -/
theorem C4_changed_flag_semantics_witness :
    demoHolder1.autoCategorizeAgain demoDetectorSame = (demoHolder1, false) ∧
      ((demoHolder1.autoCategorizeAgain demoDetector1).2 = true ↔
        (demoHolder1.autoCategorizeAgain demoDetector1).1.categories ≠ demoHolder1.categories) :=
  ⟨(C4_changed_flag_semantics demoDetectorSame demoHolder1).1 rfl,
    (C4_changed_flag_semantics demoDetector1 demoHolder1).2⟩

/-- C5: Reconciliation applies unlocked additions: every category in the
classifier output that is absent from the current set and not
user-locked is added; concretely, `reconcile {A} {} {} {A,C}` yields
`({A,C}, changed = true)`. -/
theorem C5_applies_unlocked_additions :
    (∀ (detector : PatchHolder → Finset Category) (h : PatchHolder) (c : Category),
        c ∈ detector h → c ∉ h.categories → c ∉ h.userDecisionSet →
        c ∈ ((h.autoCategorizeAgain detector).1).categories)
    ∧ reconcile {catA} ∅ ∅ {catA, catC} = ({catA, catC}, true) := by
  constructor
  · intro detector h c hnew hcur hud
    have hne : h.categories_ ≠ detector h := by
      intro hEq
      have hc : c ∈ h.categories_ := hEq.symm ▸ hnew
      exact hcur hc
    show c ∈ (reconcile h.categories_ h.categories_ h.userDecisions_ (detector h)).1
    rw [mem_reconcile_fst hne]
    exact ⟨Or.inr ⟨hnew, hud⟩, fun ⟨_, hnn, _⟩ => hnn hnew⟩
  · decide

/-- C5 witness: the addition property evaluated at the concrete instance
(`current = {A}`, no user decisions, classifier output `{A,C}`): C is
added. -/
theorem C5_applies_unlocked_additions_witness :
    catC ∈ ((demoHolder2.autoCategorizeAgain demoDetector2).1).categories :=
  C5_applies_unlocked_additions.1 demoDetector2 demoHolder2 catC (by decide) (by decide) (by decide)

/-- C6: Reconciliation is idempotent: a second `autoCategorizeAgain` with
the same classifier output and no intervening user decisions leaves the
category set unchanged and reports `false`. -/
theorem C6_idempotent :
    ∀ (detector : PatchHolder → Finset Category) (h : PatchHolder),
      detector ((h.autoCategorizeAgain detector).1) = detector h →
      ((h.autoCategorizeAgain detector).1).autoCategorizeAgain detector =
        ((h.autoCategorizeAgain detector).1, false) := by
  intro detector h hsame
  set h1 := (h.autoCategorizeAgain detector).1 with hh1
  by_cases hne : h.categories_ = detector h
  · have hfix : h1 = h := by
      rw [hh1]
      show ({ h with categories_ := (reconcile h.categories_ h.categories_ h.userDecisions_ (detector h)).1 }) = h
      rw [reconcile_of_eq hne]
    rw [hfix] at hsame ⊢
    show ({ h with categories_ := (reconcile h.categories_ h.categories_ h.userDecisions_ (detector h)).1 },
        (reconcile h.categories_ h.categories_ h.userDecisions_ (detector h)).2) = (h, false)
    rw [reconcile_of_eq hne]
  · have hcat1 : h1.categories_ =
        (h.categories_ ∪ (detector h \ h.userDecisions_)) \
          ((h.categories_ \ detector h) \ h.userDecisions_) := by
      rw [hh1, autoCategorizeAgain_fst_categories, reconcile_fst_eq hne]
    have hud1 : h1.userDecisions_ = h.userDecisions_ := rfl
    show ({ h1 with categories_ := (reconcile h1.categories_ h1.categories_ h1.userDecisions_ (detector h1)).1 },
        (reconcile h1.categories_ h1.categories_ h1.userDecisions_ (detector h1)).2) = (h1, false)
    by_cases hne2 : h1.categories_ = detector h1
    · rw [reconcile_of_eq hne2]
    · have hfixed : (reconcile h1.categories_ h1.categories_ h1.userDecisions_ (detector h1)).1 =
          h1.categories_ := by
        rw [reconcile_fst_eq hne2, hsame, hud1, hcat1]
        exact reconcile_result_fixed h.categories_ h.userDecisions_ (detector h)
      have hflag : (reconcile h1.categories_ h1.categories_ h1.userDecisions_ (detector h1)).2 = false := by
        rw [reconcile_snd_eq hne2, hfixed]
        simp
      rw [Prod.mk.injEq]
      constructor
      · rw [hfixed]
      · exact hflag

/-- C6 witness: idempotence evaluated at the concrete instance
(`categories = {A,B}`, B user-locked, constant classifier output `{A}`):
the second call is a no-op reporting `false`. -/
theorem C6_idempotent_witness :
    ((demoHolder1.autoCategorizeAgain demoDetector1).1).autoCategorizeAgain demoDetector1 =
      ((demoHolder1.autoCategorizeAgain demoDetector1).1, false) :=
  C6_idempotent demoDetector1 demoHolder1 rfl

/-- C8: The user-decision set only grows under every operation other than
the explicit replacement call `setUserDecisions`: `autoCategorizeAgain`,
`setCategory`, `setCategories`, `clearCategories` and `setUserDecision`
all leave `userDecisions_` a superset of its pre-call value. -/
theorem C8_userDecisions_only_grow :
    ∀ (h : PatchHolder) (detector : PatchHolder → Finset Category) (c : Category)
      (b : Bool) (cats : Finset Category),
      h.userDecisionSet ⊆ ((h.autoCategorizeAgain detector).1).userDecisionSet
      ∧ h.userDecisionSet ⊆ (h.setCategory c b).userDecisionSet
      ∧ h.userDecisionSet ⊆ (h.setCategories cats).userDecisionSet
      ∧ h.userDecisionSet ⊆ h.clearCategories.userDecisionSet
      ∧ h.userDecisionSet ⊆ (h.setUserDecision c).userDecisionSet := by
  intro h detector c b cats
  refine ⟨Finset.Subset.refl _, ?_, Finset.Subset.refl _, Finset.Subset.refl _, ?_⟩
  · unfold PatchHolder.setCategory
    split
    · split
      · exact Finset.Subset.refl _
      · exact Finset.Subset.refl _
    · exact Finset.Subset.refl _
  · exact Finset.subset_insert _ _

/-- C9: Favorite integer decoding: `-1` yields Unknown (`DONTKNOW`), `0`
yields `NO`, `1` yields `YES`, and every other integer is decoded
defensively to Unknown rather than failing. -/
theorem C9_favorite_int_decoding :
    favoriteFromInt (-1) = ⟨TFavorite.DONTKNOW⟩
    ∧ favoriteFromInt 0 = ⟨TFavorite.NO⟩
    ∧ favoriteFromInt 1 = ⟨TFavorite.YES⟩
    ∧ ∀ n : Int, n ≠ -1 → n ≠ 0 → n ≠ 1 → favoriteFromInt n = ⟨TFavorite.DONTKNOW⟩ := by
  refine ⟨rfl, rfl, rfl, ?_⟩
  intro n h1 h2 h3
  simp only [favoriteFromInt, if_neg h1, if_neg h2, if_neg h3]

/-- C9 witness: the defensive decode evaluated at the out-of-range
integer 5 of the claim. -/
theorem C9_favorite_int_decoding_witness :
    favoriteFromInt 5 = ⟨TFavorite.DONTKNOW⟩ :=
  C9_favorite_int_decoding.2.2.2 5 (by decide) (by decide) (by decide)

/-- C10: `isEditBufferImport` returns true exactly for a non-null
`FromSynthSource` record with an invalid bank number; a null pointer, a
`FromFileSource`, a `FromBulkImportSource`, or a `FromSynthSource` with
a valid bank all give false. -/
theorem C10_isEditBufferImport_characterization :
    ∀ si : Option SourceInfo,
      (isEditBufferImport si = true ↔ ∃ t, si = some (.fromSynthSource t none)) := by
  intro si
  match si with
  | none => simp [isEditBufferImport]
  | some (.fromFileSource f p n) => simp [isEditBufferImport]
  | some (.fromSynthSource t none) =>
    simp only [isEditBufferImport, true_iff]
    exact ⟨t, rfl⟩
  | some (.fromSynthSource t (some b)) => simp [isEditBufferImport]
  | some (.fromBulkImportSource t i) => simp [isEditBufferImport]

/-- C2: Discriminator priority of `SourceInfo::fromString`: the keys are
checked in the fixed order `filesource`, `synthsource`, `bulksource`,
so any parsed object carrying both the `filesource` and `bulksource`
keys is handed to the FileSource parser, and any record it produces is a
FileSource record. -/
theorem C2_discriminator_priority :
    ∀ (s : String) (fields : List (String × JValue)),
      jsonParse s = some (.jobj fields) →
      hasMember fields kFileSource = true →
      hasMember fields kBulkSource = true →
      sourceInfo_fromString s = fromFileSource_fromString s
      ∧ ∀ r, sourceInfo_fromString s = .ok (some r) →
          ∃ f p n, r = SourceInfo.fromFileSource f p n := by
  intro s fields hparse hfile _hbulk
  have hdisp : sourceInfo_fromString s = fromFileSource_fromString s := by
    show sourceInfoFromStringGo (s.length + 1) s = fromFileSource_fromString s
    simp only [sourceInfoFromStringGo, hparse, hfile, if_true]
  refine ⟨hdisp, ?_⟩
  intro r hr
  rw [hdisp] at hr
  simp only [fromFileSource_fromString, hparse, hfile, if_true] at hr
  rcases hfn : getMemberString fields kFileName with e | fn <;> rw [hfn] at hr
  · cases hr
  rcases hfp : getMemberString fields kFullPath with e | fp <;> rw [hfp] at hr
  · cases hr
  rcases hpn : getMemberInt fields kProgramNo with e | n <;> rw [hpn] at hr
  · cases hr
  simp only [Except.ok.injEq, Option.some.injEq] at hr
  exact ⟨fn, fp, n, hr.symm⟩

/-- C2 witness: a concrete serialized object carrying both the
`filesource` and `bulksource` keys (plus the FileSource fields) is
dispatched to the FileSource parser and produces a FileSource record. -/
theorem C2_discriminator_priority_witness :
    sourceInfo_fromString
        "\x7b\"filesource\":true,\"bulksource\":true,\"filename\":\"n\",\"fullpath\":\"p\",\"program\":1\x7d" =
      fromFileSource_fromString
        "\x7b\"filesource\":true,\"bulksource\":true,\"filename\":\"n\",\"fullpath\":\"p\",\"program\":1\x7d"
    ∧ ∃ f p n,
        (SourceInfo.fromFileSource "n" "p" 1 : SourceInfo) = SourceInfo.fromFileSource f p n :=
  ⟨(C2_discriminator_priority
      "\x7b\"filesource\":true,\"bulksource\":true,\"filename\":\"n\",\"fullpath\":\"p\",\"program\":1\x7d"
      [(kFileSource, .jbool true), (kBulkSource, .jbool true), (kFileName, .jstr "n"),
        (kFullPath, .jstr "p"), (kProgramNo, .jint 1)]
      (by rfl) (by rfl) (by rfl)).1,
    (C2_discriminator_priority
      "\x7b\"filesource\":true,\"bulksource\":true,\"filename\":\"n\",\"fullpath\":\"p\",\"program\":1\x7d"
      [(kFileSource, .jbool true), (kBulkSource, .jbool true), (kFileName, .jstr "n"),
        (kFullPath, .jstr "p"), (kProgramNo, .jint 1)]
      (by rfl) (by rfl) (by rfl)).2
      (SourceInfo.fromFileSource "n" "p" 1) (by rfl)⟩

/-- C7 counterexample: the claim "every unrecognized or malformed input —
including text lacking required variant fields — deserializes to
absence, never an error" is false at the concrete input
`{"filesource":true}`: the discriminator is recognized, the FileSource
parser dereferences the absent `filename` member
(`FindMember(...).operator*()`), and the call faults instead of
returning absence. -/
theorem C7_counterexample :
    sourceInfo_fromString "\x7b\"filesource\":true\x7d" = .error RapidjsonFault.memberNotFound
    ∧ sourceInfo_fromString "\x7b\"filesource\":true\x7d" ≠ .ok none :=
  ⟨rfl, fun h => Except.noConfusion h⟩

/-- C7 (amended): For every input string whose parse fails, is not an
object, or is an object without any recognized discriminator key —
including `"{}"`, `""` and non-object JSON — `SourceInfo::fromString`
returns absence (`nullptr`), not an error; text that does carry a
recognized discriminator but lacks that variant's required fields is
outside this guarantee (it faults, see the counterexample). -/
theorem C7_malformed_input_absence :
    (∀ s : String, parsedObjHasDiscriminator s = false → sourceInfo_fromString s = .ok none)
    ∧ sourceInfo_fromString "" = .ok none
    ∧ sourceInfo_fromString "\x7b\x7d" = .ok none
    ∧ sourceInfo_fromString "5" = .ok none := by
  refine ⟨?_, rfl, rfl, rfl⟩
  intro s hdisc
  show sourceInfoFromStringGo (s.length + 1) s = .ok none
  rcases hp : jsonParse s with _ | v
  · simp only [sourceInfoFromStringGo, hp]
  · match v with
    | .jnull => simp only [sourceInfoFromStringGo, hp]
    | .jbool b => simp only [sourceInfoFromStringGo, hp]
    | .jint n => simp only [sourceInfoFromStringGo, hp]
    | .jstr str => simp only [sourceInfoFromStringGo, hp]
    | .jarr elems => simp only [sourceInfoFromStringGo, hp]
    | .jobj fields =>
      have hd : (hasMember fields kFileSource || hasMember fields kSynthSource ||
          hasMember fields kBulkSource) = false := by
        simpa only [parsedObjHasDiscriminator, hp] using hdisc
      simp only [Bool.or_eq_false_iff] at hd
      simp only [sourceInfoFromStringGo, hp, hd.1.1, hd.1.2, hd.2, Bool.false_eq_true, if_false]

/-- C7 witness: the absence guarantee of the amended claim evaluated at
the concrete non-object input `"null"`. -/
theorem C7_malformed_input_absence_witness :
    sourceInfo_fromString "null" = .ok none :=
  C7_malformed_input_absence.1 "null" (by rfl)

/-! ## Round-trip lemmas: characters and integers -/

theorem charOfNat_toNat {m : Nat} (h : m < 55296) : (Char.ofNat m).toNat = m := by
  have hv : m.isValidChar := Or.inl h
  simp [Char.ofNat, hv, Char.ofNatAux, Char.toNat, UInt32.toNat, BitVec.toNat_ofNatLt]

theorem takeWhile_append_all {p : Char → Bool} {l1 : List Char} (l2 : List Char)
    (h : ∀ c ∈ l1, p c = true) :
    (l1 ++ l2).takeWhile p = l1 ++ l2.takeWhile p := by
  induction l1 with
  | nil => simp
  | cons c cs ih => simp [List.takeWhile, h c (by simp), ih (fun x hx => h x (by simp [hx]))]

theorem dropWhile_append_all {p : Char → Bool} {l1 : List Char} (l2 : List Char)
    (h : ∀ c ∈ l1, p c = true) :
    (l1 ++ l2).dropWhile p = l2.dropWhile p := by
  induction l1 with
  | nil => simp
  | cons c cs ih => simp [List.dropWhile, h c (by simp), ih (fun x hx => h x (by simp [hx]))]

theorem hexVal_hexDigitChar {d : Nat} (h : d < 16) : hexVal (hexDigitChar d) = some d := by
  interval_cases d <;> rfl

theorem psb_quote (rest : List Char) : parseStringBody (quoteChar :: rest) = some ([], rest) := by
  rw [parseStringBody.eq_def]
  simp

theorem psb_escQuote (rest : List Char) :
    parseStringBody (backslashChar :: quoteChar :: rest) =
      (parseStringBody rest).map (fun p => (quoteChar :: p.1, p.2)) := by
  rw [parseStringBody.eq_def]
  simp [unescapeChar, show backslashChar ≠ quoteChar from by decide,
    show quoteChar ≠ 'u' from by decide]

theorem psb_escBackslash (rest : List Char) :
    parseStringBody (backslashChar :: backslashChar :: rest) =
      (parseStringBody rest).map (fun p => (backslashChar :: p.1, p.2)) := by
  rw [parseStringBody.eq_def]
  simp [unescapeChar, show backslashChar ≠ quoteChar from by decide,
    show backslashChar ≠ 'u' from by decide]

theorem psb_escU {h1 h2 h3 h4 : Char} {d1 d2 d3 d4 : Nat} (e1 : hexVal h1 = some d1)
    (e2 : hexVal h2 = some d2) (e3 : hexVal h3 = some d3) (e4 : hexVal h4 = some d4)
    (rest : List Char) :
    parseStringBody (backslashChar :: 'u' :: h1 :: h2 :: h3 :: h4 :: rest) =
      (parseStringBody rest).map
        (fun p => (Char.ofNat (((d1 * 16 + d2) * 16 + d3) * 16 + d4) :: p.1, p.2)) := by
  rw [parseStringBody.eq_def]
  simp [e1, e2, e3, e4, show backslashChar ≠ quoteChar from by decide]

theorem psb_plain {c : Char} (hq : c ≠ quoteChar) (hb : c ≠ backslashChar) (rest : List Char) :
    parseStringBody (c :: rest) = (parseStringBody rest).map (fun p => (c :: p.1, p.2)) := by
  rw [parseStringBody.eq_def]
  simp [hq, hb]

theorem parseStringBody_escStr (cs rest : List Char) :
    parseStringBody (escStr cs ++ quoteChar :: rest) = some (cs, rest) := by
  induction cs with
  | nil =>
    show parseStringBody ([] ++ quoteChar :: rest) = _
    rw [List.nil_append, psb_quote]
  | cons c cs ih =>
    show parseStringBody ((escChar c ++ escStr cs) ++ quoteChar :: rest) = _
    rw [List.append_assoc]
    by_cases hq : c = quoteChar
    · subst hq
      rw [show escChar quoteChar = [backslashChar, quoteChar] from rfl]
      simp only [List.cons_append, List.nil_append]
      rw [psb_escQuote, ih]
      rfl
    · by_cases hb : c = backslashChar
      · subst hb
        rw [show escChar backslashChar = [backslashChar, backslashChar] from rfl]
        simp only [List.cons_append, List.nil_append]
        rw [psb_escBackslash, ih]
        rfl
      · by_cases hc : c.toNat < 32
        · rw [show escChar c =
              [backslashChar, 'u', '0', '0', hexDigitChar (c.toNat / 16),
                hexDigitChar (c.toNat % 16)] from by simp [escChar, hq, hb, hc]]
          simp only [List.cons_append, List.nil_append]
          rw [psb_escU (show hexVal '0' = some 0 from rfl) (show hexVal '0' = some 0 from rfl)
            (hexVal_hexDigitChar (by omega)) (hexVal_hexDigitChar (by omega)), ih]
          have hv : c.toNat / 16 * 16 + c.toNat % 16 = c.toNat := by omega
          simp [hv, Char.ofNat_toNat]
        · rw [show escChar c = [c] from by simp [escChar, hq, hb, hc]]
          simp only [List.cons_append, List.nil_append]
          rw [psb_plain hq hb, ih]
          rfl

theorem isDigit_natDigitsChars (n : Nat) : ∀ c ∈ natDigitsChars n, isDigitChar c = true := by
  unfold natDigitsChars
  split
  · intro c hc
    simp only [List.mem_singleton] at hc
    subst hc
    decide
  · intro c hc
    simp only [List.mem_reverse, List.mem_map] at hc
    obtain ⟨d, hd, rfl⟩ := hc
    have hd10 : d < 10 := Nat.digits_lt_base (by norm_num) hd
    have ht : (Char.ofNat (48 + d)).toNat = 48 + d := charOfNat_toNat (by omega)
    simp [isDigitChar, ht]
    omega

theorem natDigitsChars_ne_nil (n : Nat) : natDigitsChars n ≠ [] := by
  unfold natDigitsChars
  split
  · simp
  · simp [Nat.digits_ne_nil_iff_ne_zero, *]

theorem foldr_digit_chars (ds : List Nat) (hds : ∀ d ∈ ds, d < 10) :
    ds.foldr (fun d acc => acc * 10 + ((Char.ofNat (48 + d)).toNat - 48)) 0 =
      Nat.ofDigits 10 ds := by
  induction ds with
  | nil => simp [Nat.ofDigits]
  | cons d ds ih =>
    have hd : d < 10 := hds d (by simp)
    have ht : (Char.ofNat (48 + d)).toNat = 48 + d := charOfNat_toNat (by omega)
    have ihh := ih (fun x hx => hds x (by simp [hx]))
    simp [Nat.ofDigits, ht, ihh]
    omega

theorem digitsVal_natDigitsChars (n : Nat) : digitsVal (natDigitsChars n) = n := by
  unfold natDigitsChars digitsVal
  split
  · rename_i h
    subst h
    rfl
  · rw [List.foldl_reverse, List.foldr_map]
    rw [foldr_digit_chars _ (fun d hd => Nat.digits_lt_base (by norm_num) hd)]
    exact Nat.ofDigits_digits 10 n

theorem parseNat_natDigitsChars (n : Nat) (rest : List Char)
    (hrest : ∀ c, rest.head? = some c → isDigitChar c = false) :
    parseNat (natDigitsChars n ++ rest) = some (n, rest) := by
  have hall := isDigit_natDigitsChars n
  have htw2 : rest.takeWhile isDigitChar = [] := by
    cases rest with
    | nil => rfl
    | cons c t => simp [List.takeWhile, hrest c rfl]
  have hdw2 : rest.dropWhile isDigitChar = rest := by
    cases rest with
    | nil => rfl
    | cons c t => simp [List.dropWhile, hrest c rfl]
  have hne : (natDigitsChars n).isEmpty = false := by
    cases h : natDigitsChars n with
    | nil => exact absurd h (natDigitsChars_ne_nil n)
    | cons a s => rfl
  unfold parseNat
  rw [takeWhile_append_all _ hall, dropWhile_append_all _ hall, htw2, hdw2, List.append_nil,
    hne, digitsVal_natDigitsChars]
  rfl

theorem intChars_head_spec (i : Int) :
    ∃ c t, intChars i = c :: t ∧ (c = minusChar ∨ isDigitChar c = true) := by
  unfold intChars
  split
  · exact ⟨minusChar, _, rfl, Or.inl rfl⟩
  · obtain ⟨c, t, hct⟩ : ∃ c t, natDigitsChars i.natAbs = c :: t := by
      cases h : natDigitsChars i.natAbs with
      | nil => exact absurd h (natDigitsChars_ne_nil _)
      | cons c t => exact ⟨c, t, rfl⟩
    exact ⟨c, t, hct, Or.inr (isDigit_natDigitsChars _ c (by rw [hct]; simp))⟩

theorem parseIntChars_intChars (i : Int) (rest : List Char)
    (hrest : ∀ c, rest.head? = some c → isDigitChar c = false) :
    parseIntChars (intChars i ++ rest) = some (i, rest) := by
  unfold intChars
  split
  · rename_i hneg
    simp only [List.cons_append]
    rw [show parseIntChars (minusChar :: (natDigitsChars i.natAbs ++ rest)) =
        (parseNat (natDigitsChars i.natAbs ++ rest)).map (fun p => (-(p.1 : Int), p.2)) from by
      rw [parseIntChars.eq_def]
      simp]
    rw [parseNat_natDigitsChars _ _ hrest]
    simp only [Option.map_some', Option.some.injEq, Prod.mk.injEq]
    constructor
    · omega
    · trivial
  · rename_i hpos
    obtain ⟨c, t, hct⟩ : ∃ c t, natDigitsChars i.natAbs = c :: t := by
      cases h : natDigitsChars i.natAbs with
      | nil => exact absurd h (natDigitsChars_ne_nil _)
      | cons c t => exact ⟨c, t, rfl⟩
    have hcd : isDigitChar c = true := isDigit_natDigitsChars _ c (by rw [hct]; simp)
    have hcm : c ≠ minusChar := fun h => by
      rw [h] at hcd
      exact absurd hcd (by decide)
    rw [hct]
    simp only [List.cons_append]
    rw [show parseIntChars (c :: (t ++ rest)) =
        (parseNat (c :: (t ++ rest))).map (fun p => ((p.1 : Int), p.2)) from by
      rw [parseIntChars.eq_def]
      simp [hcm]]
    rw [show (c :: (t ++ rest)) = (c :: t) ++ rest from rfl, ← hct]
    rw [parseNat_natDigitsChars _ _ hrest]
    simp only [Option.map_some', Option.some.injEq, Prod.mk.injEq]
    constructor
    · omega
    · trivial

theorem fromISO8601_toISO8601 (t : Time) : fromISO8601 (toISO8601 t) = t := by
  unfold fromISO8601 toISO8601
  have h := parseIntChars_intChars t [] (fun c hc => by cases hc)
  rw [List.append_nil] at h
  show (match parseIntChars (intChars t) with
    | some (x, []) => x
    | _ => (0 : Time)) = t
  rw [h]

/-! ## Round-trip lemmas: DOM values and member lists -/

theorem pv_quote (fuel : Nat) (rest : List Char) :
    parseVal (fuel + 1) (quoteChar :: rest) =
      (parseStringBody rest).map (fun p => (JValue.jstr (String.mk p.1), p.2)) := by
  rw [parseVal.eq_def]
  simp [show quoteChar ≠ lbraceChar from by decide, show quoteChar ≠ lbrackChar from by decide]

theorem pv_true (fuel : Nat) (rest : List Char) :
    parseVal (fuel + 1) ('t' :: 'r' :: 'u' :: 'e' :: rest) = some (.jbool true, rest) := by
  rw [parseVal.eq_def]
  simp [show ('t' : Char) ≠ lbraceChar from by decide,
    show ('t' : Char) ≠ lbrackChar from by decide,
    show ('t' : Char) ≠ quoteChar from by decide, List.take, List.drop]

theorem pv_int (i : Int) (fuel : Nat) (rest : List Char)
    (hrest : ∀ c, rest.head? = some c → isDigitChar c = false) :
    parseVal (fuel + 1) (intChars i ++ rest) = some (.jint i, rest) := by
  obtain ⟨c, t, hct, hcase⟩ := intChars_head_spec i
  have key : ∀ x : Char, minusChar ≠ x → isDigitChar x = false → c ≠ x := by
    intro x hmx hdx hcx
    subst hcx
    rcases hcase with h | h
    · exact hmx h.symm
    · rw [hdx] at h
      exact Bool.noConfusion h
  rw [hct, List.cons_append, parseVal.eq_def]
  simp only [key lbraceChar (by decide) (by decide),
    key lbrackChar (by decide) (by decide),
    key quoteChar (by decide) (by decide),
    key 't' (by decide) (by decide),
    key 'f' (by decide) (by decide),
    key 'n' (by decide) (by decide), if_false, ite_false]
  rw [if_pos hcase]
  rw [show (c :: (t ++ rest)) = (c :: t) ++ rest from rfl, ← hct,
    parseIntChars_intChars i rest hrest]
  rfl

theorem pv_false (fuel : Nat) (rest : List Char) :
    parseVal (fuel + 1) ('f' :: 'a' :: 'l' :: 's' :: 'e' :: rest) = some (.jbool false, rest) := by
  rw [parseVal.eq_def]
  simp [show ('f' : Char) ≠ lbraceChar from by decide,
    show ('f' : Char) ≠ lbrackChar from by decide,
    show ('f' : Char) ≠ quoteChar from by decide,
    show ('f' : Char) ≠ 't' from by decide, List.take, List.drop]

theorem pv_null (fuel : Nat) (rest : List Char) :
    parseVal (fuel + 1) ('n' :: 'u' :: 'l' :: 'l' :: rest) = some (.jnull, rest) := by
  rw [parseVal.eq_def]
  simp [show ('n' : Char) ≠ lbraceChar from by decide,
    show ('n' : Char) ≠ lbrackChar from by decide,
    show ('n' : Char) ≠ quoteChar from by decide,
    show ('n' : Char) ≠ 't' from by decide,
    show ('n' : Char) ≠ 'f' from by decide, List.take, List.drop]

theorem parseVal_flat {v : JValue} (hv : JFlat v) (fuel : Nat) (rest : List Char)
    (hrest : ∀ c, rest.head? = some c → isDigitChar c = false) :
    parseVal (fuel + 1) (renderVal v ++ rest) = some (v, rest) := by
  match v with
  | .jnull =>
    rw [show renderVal .jnull = ['n', 'u', 'l', 'l'] from by simp [renderVal]]
    exact pv_null fuel rest
  | .jbool true =>
    rw [show renderVal (.jbool true) = ['t', 'r', 'u', 'e'] from by simp [renderVal]]
    exact pv_true fuel rest
  | .jbool false =>
    rw [show renderVal (.jbool false) = ['f', 'a', 'l', 's', 'e'] from by simp [renderVal]]
    exact pv_false fuel rest
  | .jint n =>
    rw [show renderVal (.jint n) = intChars n from by simp [renderVal]]
    exact pv_int n fuel rest hrest
  | .jstr s =>
    rw [show renderVal (.jstr s) = renderStringChars s from by simp [renderVal]]
    unfold renderStringChars
    simp only [List.cons_append, List.append_assoc, List.singleton_append]
    rw [pv_quote, parseStringBody_escStr]
    rfl
  | .jobj fields => exact hv.elim
  | .jarr elems => exact hv.elim

theorem parseMembers_renderMembers :
    ∀ (kvs : List (String × JValue)) (kv : String × JValue),
      JFlat kv.2 → (∀ x ∈ kvs, JFlat x.2) →
      ∀ (fuel : Nat) (rest : List Char), kvs.length + 2 ≤ fuel →
      parseMembers fuel (renderMembers kv kvs ++ rbraceChar :: rest) = some (kv :: kvs, rest) := by
  intro kvs
  induction kvs with
  | nil =>
    intro kv hkv _ fuel rest hfuel
    obtain ⟨k, v⟩ := kv
    obtain ⟨f, rfl⟩ : ∃ f, fuel = (f + 1) + 1 := ⟨fuel - 2, by omega⟩
    rw [show renderMembers (k, v) [] = renderStringChars k ++ colonChar :: renderVal v from by
      simp [renderMembers]]
    unfold renderStringChars
    simp only [List.cons_append, List.append_assoc, List.singleton_append]
    rw [parseMembers.eq_def]
    simp only [parseStringBody_escStr, if_true, List.nil_append]
    rw [parseVal_flat (v := v) hkv f (rbraceChar :: rest) (by
      intro c hc
      cases hc
      decide)]
    simp [show rbraceChar ≠ commaChar from by decide]
  | cons kv2 kvs ih =>
    intro kv hkv hall fuel rest hfuel
    obtain ⟨k, v⟩ := kv
    obtain ⟨f, rfl⟩ : ∃ f, fuel = (f + 1) + 1 := ⟨fuel - 2, by omega⟩
    rw [show renderMembers (k, v) (kv2 :: kvs) =
        renderStringChars k ++ colonChar :: renderVal v ++ commaChar :: renderMembers kv2 kvs
      from by simp [renderMembers]]
    unfold renderStringChars
    simp only [List.cons_append, List.append_assoc, List.singleton_append]
    rw [parseMembers.eq_def]
    simp only [parseStringBody_escStr, if_true, List.nil_append]
    rw [parseVal_flat (v := v) hkv f (commaChar :: (renderMembers kv2 kvs ++ rbraceChar :: rest)) (by
      intro c hc
      cases hc
      decide)]
    simp only [ih kv2 (hall kv2 (by simp)) (fun x hx => hall x (by simp [hx])) (f + 1) rest
      (by simp at hfuel ⊢; omega)]
    simp

theorem renderMembers_length (kvs : List (String × JValue)) (kv : String × JValue) :
    kvs.length ≤ (renderMembers kv kvs).length := by
  induction kvs generalizing kv with
  | nil => simp
  | cons kv2 kvs ih =>
    obtain ⟨k, v⟩ := kv
    rw [show renderMembers (k, v) (kv2 :: kvs) =
        renderStringChars k ++ colonChar :: renderVal v ++ commaChar :: renderMembers kv2 kvs
      from by simp [renderMembers]]
    have := ih kv2
    simp [List.length_append]
    omega

theorem renderMembers_head (kv : String × JValue) (kvs : List (String × JValue)) :
    ∃ t, renderMembers kv kvs = quoteChar :: t := by
  obtain ⟨k, v⟩ := kv
  cases kvs with
  | nil =>
    refine ⟨escStr k.data ++ [quoteChar] ++ (colonChar :: renderVal v), ?_⟩
    rw [show renderMembers (k, v) [] = renderStringChars k ++ colonChar :: renderVal v from by
      simp [renderMembers]]
    simp [renderStringChars]
  | cons kv2 kvs =>
    refine ⟨escStr k.data ++ [quoteChar] ++
      (colonChar :: renderVal v ++ commaChar :: renderMembers kv2 kvs), ?_⟩
    rw [show renderMembers (k, v) (kv2 :: kvs) =
        renderStringChars k ++ colonChar :: renderVal v ++ commaChar :: renderMembers kv2 kvs
      from by simp [renderMembers]]
    simp [renderStringChars]

theorem jsonParse_render_flatObj (kv : String × JValue) (kvs : List (String × JValue))
    (hkv : JFlat kv.2) (hall : ∀ x ∈ kvs, JFlat x.2) :
    jsonParse (renderToJson (.jobj (kv :: kvs))) = some (.jobj (kv :: kvs)) := by
  unfold jsonParse renderToJson
  rw [show (String.mk (renderVal (.jobj (kv :: kvs)))).data = renderVal (.jobj (kv :: kvs))
    from rfl]
  rw [show renderVal (.jobj (kv :: kvs)) = lbraceChar :: renderMembers kv kvs ++ [rbraceChar]
    from by simp [renderVal]]
  obtain ⟨t, ht⟩ := renderMembers_head kv kvs
  have hlen := renderMembers_length kvs kv
  rw [show (lbraceChar :: renderMembers kv kvs ++ [rbraceChar]).length + 5 =
      ((lbraceChar :: renderMembers kv kvs ++ [rbraceChar]).length + 4) + 1 from rfl]
  rw [parseVal.eq_def]
  simp only [ht, List.cons_append, if_true]
  rw [show (quoteChar :: (t ++ [rbraceChar]) : List Char) = (quoteChar :: t) ++ [rbraceChar]
    from by simp]
  rw [← ht]
  rw [show (renderMembers kv kvs ++ [rbraceChar] : List Char) =
    renderMembers kv kvs ++ rbraceChar :: [] from rfl]
  rw [parseMembers_renderMembers kvs kv hkv hall _ [] (by
    simp [List.length_append]
    omega)]
  simp [show quoteChar ≠ rbraceChar from by decide, ht]

/-! ## Round-trip lemmas: provenance records -/

theorem toJson_fromFileSource (fn p : String) (n : Int) :
    sourceInfoToJson (.fromFileSource fn p n) =
      .jobj [(kFileSource, .jbool true), (kFileName, .jstr fn), (kFullPath, .jstr p),
        (kProgramNo, .jint n)] := by
  simp [sourceInfoToJson]

theorem toJson_fromSynthSource_none (t : Time) :
    sourceInfoToJson (.fromSynthSource t none) =
      .jobj [(kSynthSource, .jbool true), (kTimeStamp, .jstr (toISO8601 t))] := by
  simp [sourceInfoToJson]

theorem toJson_fromSynthSource_some (t : Time) (b : Int) :
    sourceInfoToJson (.fromSynthSource t (some b)) =
      .jobj [(kSynthSource, .jbool true), (kTimeStamp, .jstr (toISO8601 t)),
        (kBankNumber, .jint b)] := by
  simp [sourceInfoToJson]

theorem toJson_fromBulk_none (t : Time) :
    sourceInfoToJson (.fromBulkImportSource t none) =
      .jobj [(kBulkSource, .jbool true), (kTimeStamp, .jstr (toISO8601 t))] := by
  simp [sourceInfoToJson]

theorem toJson_fromBulk_some (t : Time) (sub : SourceInfo) :
    sourceInfoToJson (.fromBulkImportSource t (some sub)) =
      .jobj [(kBulkSource, .jbool true), (kTimeStamp, .jstr (toISO8601 t)),
        (kFileInBulk, .jstr (sourceInfoToString sub))] := by
  simp [sourceInfoToJson]

theorem toString_eq_render (x : SourceInfo) :
    sourceInfoToString x = renderToJson (sourceInfoToJson x) := by
  cases x <;> simp [sourceInfoToString]

theorem jsonParse_sourceInfoToString (x : SourceInfo)
    (hx : ∃ kv kvs, sourceInfoToJson x = .jobj (kv :: kvs) ∧ JFlat kv.2 ∧ ∀ y ∈ kvs, JFlat y.2) :
    jsonParse (sourceInfoToString x) = some (sourceInfoToJson x) := by
  obtain ⟨kv, kvs, hEq, h1, h2⟩ := hx
  rw [toString_eq_render, hEq]
  exact jsonParse_render_flatObj kv kvs h1 h2

theorem escStr_length (cs : List Char) : cs.length ≤ (escStr cs).length := by
  induction cs with
  | nil => simp [escStr]
  | cons c cs ih =>
    have h1 : 1 ≤ (escChar c).length := by
      unfold escChar
      split_ifs <;> simp
    simp only [escStr, List.length_append, List.length_cons]
    omega

theorem sourceDepth_pos (x : SourceInfo) : 1 ≤ sourceDepth x := by
  rw [sourceDepth.eq_def]
  split <;> omega

theorem bulk_length_gt_sub (t : Time) (sub : SourceInfo) :
    (sourceInfoToString sub).length + 1 ≤
      (sourceInfoToString (.fromBulkImportSource t (some sub))).length := by
  rw [toString_eq_render (.fromBulkImportSource t (some sub)), toJson_fromBulk_some]
  have hesc := escStr_length (sourceInfoToString sub).data
  have hdata : (sourceInfoToString sub).length = (sourceInfoToString sub).data.length := rfl
  rw [show renderToJson (.jobj [(kBulkSource, .jbool true), (kTimeStamp, .jstr (toISO8601 t)),
      (kFileInBulk, .jstr (sourceInfoToString sub))]) =
    String.mk (renderVal (.jobj [(kBulkSource, .jbool true), (kTimeStamp, .jstr (toISO8601 t)),
      (kFileInBulk, .jstr (sourceInfoToString sub))])) from rfl]
  rw [show renderVal (.jobj [(kBulkSource, .jbool true), (kTimeStamp, .jstr (toISO8601 t)),
      (kFileInBulk, .jstr (sourceInfoToString sub))]) =
    lbraceChar :: renderMembers (kBulkSource, .jbool true)
      [(kTimeStamp, .jstr (toISO8601 t)), (kFileInBulk, .jstr (sourceInfoToString sub))] ++
      [rbraceChar] from by simp [renderVal]]
  rw [show renderMembers (kBulkSource, .jbool true)
      [(kTimeStamp, .jstr (toISO8601 t)), (kFileInBulk, .jstr (sourceInfoToString sub))] =
    renderStringChars kBulkSource ++ colonChar :: renderVal (.jbool true) ++ commaChar ::
      (renderStringChars kTimeStamp ++ colonChar :: renderVal (.jstr (toISO8601 t)) ++ commaChar ::
        (renderStringChars kFileInBulk ++ colonChar :: renderVal (.jstr (sourceInfoToString sub))))
    from by simp [renderMembers]]
  rw [show renderVal (.jstr (sourceInfoToString sub)) = renderStringChars (sourceInfoToString sub)
    from by simp [renderVal]]
  show _ + 1 ≤ (String.mk _).data.length
  simp only [renderStringChars, List.length_append, List.length_cons]
  omega

theorem sourceDepth_le_length :
    (x : SourceInfo) → sourceDepth x ≤ (sourceInfoToString x).length + 1
  | .fromFileSource fn p n => by
    have h : sourceDepth (.fromFileSource fn p n) = 1 := by simp [sourceDepth]
    omega
  | .fromSynthSource t b => by
    have h : sourceDepth (.fromSynthSource t b) = 1 := by simp [sourceDepth]
    omega
  | .fromBulkImportSource t none => by
    have h : sourceDepth (.fromBulkImportSource t none) = 1 := by simp [sourceDepth]
    omega
  | .fromBulkImportSource t (some sub) => by
    have ih := sourceDepth_le_length sub
    have hlen := bulk_length_gt_sub t sub
    rw [show sourceDepth (.fromBulkImportSource t (some sub)) = sourceDepth sub + 1 from by
      rw [sourceDepth.eq_def]]
    omega

theorem go_roundtrip : (x : SourceInfo) → (fuel : Nat) → sourceDepth x ≤ fuel →
    sourceInfoFromStringGo fuel (sourceInfoToString x) = .ok (some x)
  | .fromFileSource fn p n, fuel, hfuel => by
    have hd1 : 1 ≤ sourceDepth (.fromFileSource fn p n) := sourceDepth_pos _
    obtain ⟨f, rfl⟩ : ∃ f, fuel = f + 1 := ⟨fuel - 1, by omega⟩
    have hp := jsonParse_sourceInfoToString (.fromFileSource fn p n)
      ⟨_, _, toJson_fromFileSource fn p n, trivial, by
        intro y hy
        simp at hy
        rcases hy with h | h | h <;> subst h <;> trivial⟩
    rw [toJson_fromFileSource] at hp
    rw [sourceInfoFromStringGo.eq_def]
    simp [hp, fromFileSource_fromString, hasMember, findMember, getMemberString, getMemberInt,
      kFileSource, kFileName, kFullPath, kProgramNo]
  | .fromSynthSource t none, fuel, hfuel => by
    have hd1 : 1 ≤ sourceDepth (.fromSynthSource t none) := sourceDepth_pos _
    obtain ⟨f, rfl⟩ : ∃ f, fuel = f + 1 := ⟨fuel - 1, by omega⟩
    have hp := jsonParse_sourceInfoToString (.fromSynthSource t none)
      ⟨_, _, toJson_fromSynthSource_none t, trivial, by
        intro y hy
        simp at hy
        subst hy
        trivial⟩
    rw [toJson_fromSynthSource_none] at hp
    rw [sourceInfoFromStringGo.eq_def]
    simp [hp, fromSynthSource_fromString, hasMember, findMember, getMemberString, getMemberInt,
      kFileSource, kSynthSource, kBankNumber, kTimeStamp, fromISO8601_toISO8601, Except.map]
  | .fromSynthSource t (some b), fuel, hfuel => by
    have hd1 : 1 ≤ sourceDepth (.fromSynthSource t (some b)) := sourceDepth_pos _
    obtain ⟨f, rfl⟩ : ∃ f, fuel = f + 1 := ⟨fuel - 1, by omega⟩
    have hp := jsonParse_sourceInfoToString (.fromSynthSource t (some b))
      ⟨_, _, toJson_fromSynthSource_some t b, trivial, by
        intro y hy
        simp at hy
        rcases hy with h | h <;> subst h <;> trivial⟩
    rw [toJson_fromSynthSource_some] at hp
    rw [sourceInfoFromStringGo.eq_def]
    simp [hp, fromSynthSource_fromString, hasMember, findMember, getMemberString, getMemberInt,
      kFileSource, kSynthSource, kBankNumber, kTimeStamp, fromISO8601_toISO8601, Except.map]
  | .fromBulkImportSource t none, fuel, hfuel => by
    have hd1 : 1 ≤ sourceDepth (.fromBulkImportSource t none) := sourceDepth_pos _
    obtain ⟨f, rfl⟩ : ∃ f, fuel = f + 1 := ⟨fuel - 1, by omega⟩
    have hp := jsonParse_sourceInfoToString (.fromBulkImportSource t none)
      ⟨_, _, toJson_fromBulk_none t, trivial, by
        intro y hy
        simp at hy
        subst hy
        trivial⟩
    rw [toJson_fromBulk_none] at hp
    rw [sourceInfoFromStringGo.eq_def]
    simp [hp, fromBulkImportSource_core, hasMember, findMember, getMemberString, getMemberInt,
      kFileSource, kSynthSource, kBulkSource, kTimeStamp, kFileInBulk, fromISO8601_toISO8601, Except.map]
  | .fromBulkImportSource t (some sub), fuel, hfuel => by
    have hdepth : sourceDepth (.fromBulkImportSource t (some sub)) = sourceDepth sub + 1 := by
      simp [sourceDepth]
    obtain ⟨f, rfl⟩ : ∃ f, fuel = f + 1 := ⟨fuel - 1, by
      have := sourceDepth_pos sub
      omega⟩
    have ih := go_roundtrip sub f (by
      have := hdepth
      omega)
    have hp := jsonParse_sourceInfoToString (.fromBulkImportSource t (some sub))
      ⟨_, _, toJson_fromBulk_some t sub, trivial, by
        intro y hy
        simp at hy
        rcases hy with h | h <;> subst h <;> trivial⟩
    rw [toJson_fromBulk_some] at hp
    rw [sourceInfoFromStringGo.eq_def]
    simp [hp, fromBulkImportSource_core, hasMember, findMember, getMemberString, getMemberInt,
      kFileSource, kSynthSource, kBulkSource, kTimeStamp, kFileInBulk, fromISO8601_toISO8601, Except.map, ih]

/-- C3: Serialization round-trip: for every provenance record variant
(FileSource, SynthSource, BulkImportSource) and every combination of its
field values — optional fields absent included (invalid bank number,
epoch timestamp, no nested record) — deserializing the serialized text
(`SourceInfo::fromString` of `toString`) yields a record equal to the
original. -/
theorem C3_serialization_roundtrip :
    ∀ x : SourceInfo, sourceInfo_fromString (sourceInfoToString x) = .ok (some x) :=
  fun x => go_roundtrip x ((sourceInfoToString x).length + 1)
    (le_trans (sourceDepth_le_length x) (le_refl _))

end MidiKraft
